import Mathlib

/-!
# Verification of the Medium web-scraper core (`collector.py`, `parser.py`)

Shallow embedding of the pure decision logic of the scraper:

* `collector.py`: the URL classifier `_is_article_url`, URL canonicalization
  `_normalize_url`, the link-harvest pass `_extract_article_links`, and the
  scroll loop of `collect_links_from_tag` (merge step, stale-content and
  exhaustion stopping conditions, iteration cap).
* `parser.py`: the date normalizer `_normalize_date`, the criteria filter
  `filter_articles_by_criteria`, the two-tier extractor `extract_article_metadata`
  (tiers abstracted as inputs), and the batch orchestrator `process_articles_batch`
  (extractor abstracted as a function argument, pacing modelled as a trace).

Python string primitives are modelled at the character-list level:
`needle in hay` is `pyIn`, `s.startswith(p)` is `pyStartsWith`,
`s.split(sep)[0]` for a one-character separator is `takeUntilChar`,
`s.replace(a, b)` for one-character `a`, `b` is `replChar`
(and `removeChar` when `b` is empty), `s.lower()` is `pyLower`
(ASCII, as the relevant inputs are ASCII), `s.strip()` is `pyStrip`.
-/

/-- `listStarts pre l` : `pre` is a prefix of `l` (char-by-char). -/
def listStarts : List Char → List Char → Bool
  | [], _ => true
  | _ :: _, [] => false
  | a :: as, b :: bs => a = b && listStarts as bs

/-- `listHas needle hay` : `needle` occurs as a contiguous substring of `hay`.
Models Python's `needle in hay`. -/
def listHas (needle : List Char) : List Char → Bool
  | [] => listStarts needle []
  | c :: rest => listStarts needle (c :: rest) || listHas needle rest

/-- Python `needle in hay` on strings. -/
def pyIn (needle hay : String) : Bool :=
  listHas needle.toList hay.toList

/-- Python `s.startswith(pre)`. -/
def pyStartsWith (s pre : String) : Bool :=
  listStarts pre.toList s.toList

/-- Python `s.split(c)[0]` for a one-character separator `c`:
the prefix of `s` before the first occurrence of `c` (all of `s` if absent). -/
def takeUntilChar (c : Char) (s : String) : String :=
  ⟨s.toList.takeWhile (fun x => x ≠ c)⟩

/-- Python `s.lower()` (ASCII case folding). -/
def pyLower (s : String) : String :=
  ⟨s.toList.map Char.toLower⟩

/-- Python `s.replace(a, b)` for one-character pattern and replacement. -/
def replChar (a b : Char) (s : String) : String :=
  ⟨s.toList.map (fun c => if c = a then b else c)⟩

/-- Python `s.replace(a, "")` for a one-character pattern: drop every `a`. -/
def removeChar (a : Char) (s : String) : String :=
  ⟨s.toList.filter (fun c => c ≠ a)⟩

/-- Python whitespace class `\s` (the characters stripped by `str.strip()`). -/
def isSpaceChar (c : Char) : Bool :=
  c = ' ' || c = '\t' || c = '\n' || c = '\r' || c = '\x0b' || c = '\x0c'

/-- Python `s.strip()`. -/
def pyStrip (s : String) : String :=
  ⟨((s.toList.dropWhile isSpaceChar).reverse.dropWhile isSpaceChar).reverse⟩

/-! ## collector.py : URL classifier and canonicalization -/

/-- `collector.py` line 168: the fixed exclusion markers of `_is_article_url`. -/
def badMarkers : List String :=
  ["/tag/", "/search", "/me/", "/about", "/followers", "/lists", "/topics",
   "?source=", "/archive", "signin", "signup"]

/-- `[a-f0-9]` : lowercase hex digit, as in the regex of `collector.py` line 173. -/
def isHexChar (c : Char) : Bool :=
  ('a' ≤ c && c ≤ 'f') || ('0' ≤ c && c ≤ '9')

/-- `re.search(r"-[a-f0-9]{8,12}$", url)` : some suffix of `url` consists of a
hyphen followed by `k` lowercase hex digits running to the end, `8 ≤ k ≤ 12`. -/
def hexSuffixAtEnd (url : String) : Bool :=
  let rev := url.toList.reverse
  [8, 9, 10, 11, 12].any fun k =>
    decide ((rev.take k).length = k) && (rev.take k).all isHexChar &&
      ((rev.drop k).head? == some '-')

/-- `collector.py` lines 165-175: `_is_article_url`. -/
def isArticleUrl (url : String) : Bool :=
  if url = "" then false
  else if badMarkers.any (fun b => pyIn b (pyLower url)) then false
  else if pyIn "/@" url && decide (url.length > 40) then true
  else if hexSuffixAtEnd url then true
  else false

/-- `collector.py` lines 178-179: `_normalize_url`, i.e.
`url.split("?")[0].split("#")[0]`. -/
def normalizeUrl (url : String) : String :=
  takeUntilChar '#' (takeUntilChar '?' url)

/-- `collector.py` lines 144-162: `_extract_article_links`, as a function of the
anchor hrefs of the currently rendered document.  Keeps each non-empty href
accepted by `_is_article_url`, canonicalized; the old-content flag is never set
(the detection heuristic at lines 158-161 is only a comment). -/
def extractArticleLinks (hrefs : List String) : Finset String × Bool :=
  (((hrefs.filter (fun h => h ≠ "" && isArticleUrl h)).map normalizeUrl).toFinset,
   false)

/-! ## collector.py : the scroll loop of `collect_links_from_tag` -/

/-- `collector.py` line 20. -/
def MAX_SCROLLS : Nat := 150

/-- `collector.py` line 106: `is_chronological = "/latest" in page.url`. -/
def isChronological (pageUrl : String) : Bool :=
  pyIn "/latest" pageUrl

/-- Why the scroll loop stopped. -/
inductive StopReason where
  | staleContent
  | exhaustion
  | budget
  deriving DecidableEq

/-- `collector.py` lines 96-101: the merge step of one loop iteration.
The harvest is merged only when `len(new_urls) > len(collected_urls)`;
otherwise the no-new-content counter is incremented. -/
def mergeStep (collected : Finset String) (noNew : Nat) (newUrls : Finset String) :
    Finset String × Nat :=
  if collected.card < newUrls.card then (collected ∪ newUrls, 0)
  else (collected, noNew + 1)

/-- `collector.py` lines 93-116: one iteration of the scroll loop after the
harvest: merge, then the stale-content check (line 108), then the exhaustion
check (line 114); `none` means the loop continues. -/
def loopStep (harvested : Finset String × Bool) (isChron : Bool)
    (collected : Finset String) (noNew : Nat) :
    Finset String × Nat × Option StopReason :=
  let m := mergeStep collected noNew harvested.1
  if harvested.2 && isChron then (m.1, m.2, some StopReason.staleContent)
  else if 6 ≤ m.2 then (m.1, m.2, some StopReason.exhaustion)
  else (m.1, m.2, none)

/-- `collector.py` lines 86-119: the scroll loop, with the per-iteration harvest
and the chronological test on `page.url` abstracted as functions of the
iteration number (1-based, as `scroll_count` is pre-incremented).  `fuel` is the
number of iterations still allowed by `MAX_SCROLLS`.  Returns the accumulated
set, the final `scroll_count` and the stop reason. -/
def collectLoopAux (harvest : Nat → Finset String × Bool) (chron : Nat → Bool) :
    Nat → Nat → Nat → Finset String → Finset String × Nat × StopReason
  | 0, sc, _, collected => (collected, sc, StopReason.budget)
  | fuel + 1, sc, noNew, collected =>
    let r := loopStep (harvest (sc + 1)) (chron (sc + 1)) collected noNew
    match r.2.2 with
    | some reason => (r.1, sc + 1, reason)
    | none => collectLoopAux harvest chron fuel (sc + 1) r.2.1 r.1

/-- `collector.py` lines 81-119: the whole run of the scroll loop from the
initial state (`scroll_count = 0`, `no_new_content_count = 0`, empty set). -/
def collectLinks (harvest : Nat → Finset String × Bool) (chron : Nat → Bool) :
    Finset String × Nat × StopReason :=
  collectLoopAux harvest chron MAX_SCROLLS 0 0 ∅

/-- The accumulator and no-new-content counter after `k` iterations of the
merge step (`collector.py` lines 96-101), ignoring the stopping checks. -/
def collectState (harvest : Nat → Finset String × Bool) : Nat → Finset String × Nat
  | 0 => (∅, 0)
  | k + 1 =>
    mergeStep (collectState harvest k).1 (collectState harvest k).2 (harvest (k + 1)).1

/-! ## parser.py : the article record -/

/-- `parser.py` lines 19-28: `ARTICLE_TEMPLATE`, as a record type. -/
structure Article where
  titulo : String
  autor : String
  data_publicacao : String
  tags : List String
  tempo_leitura : String
  resumo : String
  fonte : String
  url : String
  deriving DecidableEq

/-- The template values of `ARTICLE_TEMPLATE` (`parser.py` lines 19-28). -/
def articleTemplate : Article :=
  { titulo := "", autor := "", data_publicacao := "", tags := [],
    tempo_leitura := "", resumo := "", fonte := "medium", url := "" }

/-! ## parser.py : the date normalizer `_normalize_date` -/

/-- Python `s.split(sep)` for a one-character separator, at the character
level (`String.splitOn` itself does not reduce in the kernel). -/
def splitOnCharList (c : Char) : List Char → List (List Char)
  | [] => [[]]
  | x :: xs =>
    if x = c then [] :: splitOnCharList c xs
    else
      match splitOnCharList c xs with
      | h :: t => (x :: h) :: t
      | [] => [[x]]

/-- Digits of a numeral, most significant first, to its value. -/
def digitsToNat (cs : List Char) : Nat :=
  cs.foldl (fun n c => n * 10 + (c.toNat - '0'.toNat)) 0

/-- `%Y` of `strptime` (and the year field of an ISO date): exactly four
decimal digits. -/
def parseYear4 (cs : List Char) : Option Nat :=
  match cs with
  | [a, b, c, d] =>
    if [a, b, c, d].all Char.isDigit then some (digitsToNat [a, b, c, d]) else none
  | _ => none

/-- `%m` of `strptime`: one or two decimal digits with value 1-12
(regex `1[0-2]|0[1-9]|[1-9]`). -/
def parseMonthNum (cs : List Char) : Option Nat :=
  match cs with
  | [a] => if a.isDigit && a ≠ '0' then some (digitsToNat [a]) else none
  | [a, b] =>
    if a.isDigit && b.isDigit then
      let v := digitsToNat [a, b]
      if 1 ≤ v && v ≤ 12 then some v else none
    else none
  | _ => none

/-- `%d` of `strptime`: one or two decimal digits with value 1-31
(regex `3[01]|[12]\d|0[1-9]|[1-9]`). -/
def parseDayNum (cs : List Char) : Option Nat :=
  match cs with
  | [a] => if a.isDigit && a ≠ '0' then some (digitsToNat [a]) else none
  | [a, b] =>
    if a.isDigit && b.isDigit then
      let v := digitsToNat [a, b]
      if 1 ≤ v && v ≤ 31 then some v else none
    else none
  | _ => none

/-- Gregorian leap year, as in Python's `datetime`. -/
def isLeapYear (y : Nat) : Bool :=
  y % 4 = 0 && (y % 100 ≠ 0 || y % 400 = 0)

/-- Days in a month of the proleptic Gregorian calendar. -/
def daysInMonth (y m : Nat) : Nat :=
  if m = 2 then (if isLeapYear y then 29 else 28)
  else if m = 4 || m = 6 || m = 9 || m = 11 then 30
  else 31

/-- `datetime(y, m, d)` constructs without `ValueError`:
`MINYEAR ≤ y ≤ MAXYEAR`, valid month, day within the month. -/
def validYMD (y m d : Nat) : Bool :=
  1 ≤ y && y ≤ 9999 && 1 ≤ m && m ≤ 12 && 1 ≤ d && d ≤ daysInMonth y m

/-- Exactly two decimal digits at the head, returning the value and the rest
(`_parse_hh_mm_ss_ff`'s 2-digit component step). -/
def parseTwoDigits : List Char → Option (Nat × List Char)
  | a :: b :: rest =>
    if a.isDigit && b.isDigit then some (digitsToNat [a, b], rest) else none
  | _ => none

/-- `_parse_hh_mm_ss_ff` of `datetime`: `HH[:MM[:SS[.fff[fff]]]]` consuming the
whole component string; the 3- or 6-digit fraction is validated and dropped
(`strftime("%Y-%m-%d")` never uses it). -/
def parseTimeCore (cs : List Char) : Option (Nat × Nat × Nat) :=
  match parseTwoDigits cs with
  | none => none
  | some (hh, rest) =>
    match rest with
    | [] => some (hh, 0, 0)
    | ':' :: rest2 =>
      match parseTwoDigits rest2 with
      | none => none
      | some (mm, rest3) =>
        match rest3 with
        | [] => some (hh, mm, 0)
        | ':' :: rest4 =>
          match parseTwoDigits rest4 with
          | none => none
          | some (ss, rest5) =>
            match rest5 with
            | [] => some (hh, mm, ss)
            | '.' :: frac =>
              if (decide (frac.length = 3) || decide (frac.length = 6)) &&
                  frac.all Char.isDigit then some (hh, mm, ss)
              else none
            | _ => none
        | _ => none
    | _ => none

/-- The UTC-offset part of `_parse_isoformat_time` (the text after the sign):
it must look like `HH:MM`, `HH:MM:SS` or `HH:MM:SS.ffffff` (lengths 5, 8, 15)
and denote an offset strictly below 24 hours (`timezone`'s range check). -/
def parseTzPart (cs : List Char) : Bool :=
  (decide (cs.length = 5) || decide (cs.length = 8) || decide (cs.length = 15)) &&
    match parseTimeCore cs with
    | some (th, tm, ts) => th * 3600 + tm * 60 + ts < 86400
    | none => false

/-- `_parse_isoformat_time` of `datetime`: the offset starts at the first `-`
if any, else at the first `+` (`tz_pos = tstr.find('-') + 1 or
tstr.find('+') + 1`); the time before it must parse and pass the `datetime`
constructor's range checks (hour 0-23, minute 0-59, second 0-59). -/
def parseIsoTime (tstr : List Char) : Option (Nat × Nat × Nat) :=
  let sign : Option Char :=
    if tstr.contains '-' then some '-'
    else if tstr.contains '+' then some '+'
    else none
  let core :=
    match sign with
    | none => parseTimeCore tstr
    | some c =>
      match parseTimeCore (tstr.takeWhile (fun x => x ≠ c)) with
      | some hms =>
        if parseTzPart ((tstr.dropWhile (fun x => x ≠ c)).tail) then some hms
        else none
      | none => none
  match core with
  | some (hh, mm, ss) =>
    if hh ≤ 23 && mm ≤ 59 && ss ≤ 59 then some (hh, mm, ss) else none
  | none => none

/-- `datetime.fromisoformat` (`parser.py` line 267), following its documented
grammar `YYYY-MM-DD[*HH[:MM[:SS[.fff[fff]]]][(+|-)HH:MM[:SS[.ffffff]]]]`:
a zero-padded calendar date, optionally followed by one separator character
(any character) and a time-of-day with optional fraction and UTC offset.  Only
the date part is returned, as the caller formats the result with
`strftime("%Y-%m-%d")`.  (This is the complete grammar on Python < 3.11;
Python >= 3.11 additionally accepts rarer ISO-8601 variants - basic formats
without separators, week dates, comma fractions - which this model treats as
unparsed.) -/
def fromIsoFormat (s : String) : Option (Nat × Nat × Nat) :=
  match s.toList with
  | y1 :: y2 :: y3 :: y4 :: h1 :: m1 :: m2 :: h2 :: d1 :: d2 :: rest =>
    if [y1, y2, y3, y4, m1, m2, d1, d2].all Char.isDigit && h1 = '-' && h2 = '-' then
      let y := digitsToNat [y1, y2, y3, y4]
      let m := digitsToNat [m1, m2]
      let d := digitsToNat [d1, d2]
      if validYMD y m d then
        match rest with
        | [] => some (y, m, d)
        | _sep :: tstr =>
          match parseIsoTime tstr with
          | some _ => some (y, m, d)
          | none => none
      else none
    else none
  | _ => none

/-- `strptime(s, "%Y-%m-%d")`: the string splits on `-` into exactly a year,
month and day field forming a valid date. -/
def parseYmdDash (s : String) : Option (Nat × Nat × Nat) :=
  match splitOnCharList '-' s.toList with
  | [ys, ms, ds] => do
    let y ← parseYear4 ys
    let m ← parseMonthNum ms
    let d ← parseDayNum ds
    if validYMD y m d then some (y, m, d) else none
  | _ => none

/-- `strptime(s, "%d/%m/%Y")`. -/
def parseDmySlash (s : String) : Option (Nat × Nat × Nat) :=
  match splitOnCharList '/' s.toList with
  | [ds, ms, ys] => do
    let d ← parseDayNum ds
    let m ← parseMonthNum ms
    let y ← parseYear4 ys
    if validYMD y m d then some (y, m, d) else none
  | _ => none

/-- `strptime(s, "%m/%d/%Y")`. -/
def parseMdySlash (s : String) : Option (Nat × Nat × Nat) :=
  match splitOnCharList '/' s.toList with
  | [ms, ds, ys] => do
    let m ← parseMonthNum ms
    let d ← parseDayNum ds
    let y ← parseYear4 ys
    if validYMD y m d then some (y, m, d) else none
  | _ => none

/-- Full month names recognized by `%B` (C locale). -/
def monthNamesFull : List (String × Nat) :=
  [("january", 1), ("february", 2), ("march", 3), ("april", 4), ("may", 5),
   ("june", 6), ("july", 7), ("august", 8), ("september", 9), ("october", 10),
   ("november", 11), ("december", 12)]

/-- Abbreviated month names recognized by `%b` (C locale). -/
def monthNamesAbbr : List (String × Nat) :=
  [("jan", 1), ("feb", 2), ("mar", 3), ("apr", 4), ("may", 5), ("jun", 6),
   ("jul", 7), ("aug", 8), ("sep", 9), ("oct", 10), ("nov", 11), ("dec", 12)]

/-- Drop a case-insensitive occurrence of `name` from the front of `cs`
(month names match under `re.IGNORECASE` in `strptime`). -/
def dropNameCI (name : List Char) (cs : List Char) : Option (List Char) :=
  if name.length ≤ cs.length && (cs.take name.length).map Char.toLower = name then
    some (cs.drop name.length)
  else none

/-- One-or-more whitespace (`strptime` turns literal whitespace into `\s+`). -/
def dropWs1 (cs : List Char) : Option (List Char) :=
  match cs with
  | c :: rest => if isSpaceChar c then some (rest.dropWhile isSpaceChar) else none
  | [] => none

/-- `strptime(s, "%B %d, %Y")` / `strptime(s, "%b %d, %Y")`, with the month-name
table as a parameter: month name, whitespace, day, comma, whitespace, 4-digit
year, end of string. -/
def parseMonthNameDate (names : List (String × Nat)) (s : String) :
    Option (Nat × Nat × Nat) :=
  names.findSome? fun nm => do
    let r1 ← dropNameCI nm.1.toList s.toList
    let r2 ← dropWs1 r1
    let ds := r2.takeWhile Char.isDigit
    let d ← parseDayNum ds
    match r2.drop ds.length with
    | ',' :: r3 => do
      let r4 ← dropWs1 r3
      let ys := r4.takeWhile Char.isDigit
      if r4.drop ys.length = [] then do
        let y ← parseYear4 ys
        if validYMD y nm.2 d then some (y, nm.2, d) else none
      else none
    | _ => none

/-- `parser.py` lines 272-286: the fixed `formats` list tried with `strptime`
on the stripped string, first success wins. -/
def tryStrptimeFormats (s : String) : Option (Nat × Nat × Nat) :=
  (parseYmdDash s) <|> (parseDmySlash s) <|> (parseMdySlash s) <|>
    (parseMonthNameDate monthNamesFull s) <|> (parseMonthNameDate monthNamesAbbr s)

/-- Zero-pad a numeral to two digits (`strftime` `%m`, `%d`). -/
def pad2 (n : Nat) : String :=
  if n < 10 then "0" ++ toString n else toString n

/-- Zero-pad a numeral to four digits (`strftime` `%Y`). -/
def pad4 (n : Nat) : String :=
  if n < 10 then "000" ++ toString n
  else if n < 100 then "00" ++ toString n
  else if n < 1000 then "0" ++ toString n
  else toString n

/-- `dt.strftime("%Y-%m-%d")` (`parser.py` lines 268, 284). -/
def fmtDate (ymd : Nat × Nat × Nat) : String :=
  pad4 ymd.1 ++ "-" ++ pad2 ymd.2.1 ++ "-" ++ pad2 ymd.2.2

/-- `parser.py` lines 262-264: strip the time-of-day part (text from the first
`T`, only when a `T` occurs) and the offset part (text from the first `+`). -/
def stripTimeParts (s : String) : String :=
  takeUntilChar '+' (if pyIn "T" s then takeUntilChar 'T' s else s)

/-- `parser.py` lines 253-289: `_normalize_date`. -/
def normalizeDate (dateStr : String) : String :=
  if dateStr = "" then ""
  else
    let s2 := stripTimeParts dateStr
    match fromIsoFormat (removeChar 'Z' s2) with
    | some ymd => fmtDate ymd
    | none =>
      match tryStrptimeFormats (pyStrip s2) with
      | some ymd => fmtDate ymd
      | none => s2

/-! ## parser.py : the criteria filter -/

/-- `parser.py` lines 309, 318-321: `tag.lower().replace("-", " ").replace("_", " ")`. -/
def normTag (t : String) : String :=
  replChar '_' ' ' (replChar '-' ' ' (pyLower t))

/-- `parser.py` lines 311-329: the per-article keep decision of
`filter_articles_by_criteria` (`required_tags_lower` already normalized). -/
def keepArticle (requiredTagsLower : List String) (year : Int) (article : Article) :
    Bool :=
  let date := article.data_publicacao
  if date = "" || !(pyStartsWith date (toString year)) then false
  else
    let articleTagsLower := article.tags.map normTag
    requiredTagsLower.all fun req =>
      articleTagsLower.any fun tag => pyIn req tag || pyIn tag req

/-- `parser.py` lines 292-331: `filter_articles_by_criteria`. -/
def filterArticlesByCriteria (articles : List Article) (requiredTags : List String)
    (year : Int) : List Article :=
  articles.filter (keepArticle (requiredTags.map normTag) year)

/-- The keep condition in the spec's words: `publishedDate` non-empty and
beginning with the decimal form of `year`, and every required category matching
at least one of the record's categories under the case-insensitive,
hyphen/underscore-to-space-normalized substring test in either direction. -/
def KeepSpec (requiredTags : List String) (year : Int) (a : Article) : Prop :=
  a.data_publicacao ≠ "" ∧
  pyStartsWith a.data_publicacao (toString year) = true ∧
  ∀ req ∈ requiredTags, ∃ tag ∈ a.tags,
    pyIn (normTag req) (normTag tag) = true ∨ pyIn (normTag tag) (normTag req) = true

instance (requiredTags : List String) (year : Int) (a : Article) :
    Decidable (KeepSpec requiredTags year a) := by
  unfold KeepSpec; infer_instance

/-! ## parser.py : the two-tier extractor -/

/-- `parser.py` line 77: `not metadata or not metadata.get("titulo")` — the
structured-data tier yielded nothing, or a record with an empty title, so the
markup tier is invoked. -/
def usesMarkupTier (jsonldResult : Option Article) : Bool :=
  match jsonldResult with
  | none => true
  | some m => m.titulo = ""

/-- `parser.py` lines 74-84: the tier selection and stamping logic of
`extract_article_metadata`, with the two tiers' outcomes as inputs (each tier
reads the rendered page; a tier fault yields `none`). -/
def extractArticleMetadata (jsonldResult htmlResult : Option Article)
    (url : String) : Option Article :=
  let metadata := if usesMarkupTier jsonldResult then htmlResult else jsonldResult
  match metadata with
  | some m => some { m with url := url, fonte := "medium" }
  | none => none

/-! ## parser.py : the batch orchestrator -/

/-- One observable action of `process_articles_batch`: an extractor invocation,
or the pacing sleep (`parser.py` lines 359, 368). -/
inductive BatchEvent where
  | extractOf (url : String)
  | delay
  deriving DecidableEq

/-- `parser.py` lines 356-368: the loop of `process_articles_batch` (1-based
index `i`, a record kept only when extraction succeeded with non-empty title,
the pacing delay emitted only when `i < total`).  Returns the retained records
and the trace of events. -/
def batchGo (ex : String → Option Article) (total : Nat) :
    Nat → List String → List Article × List BatchEvent
  | _, [] => ([], [])
  | i, url :: rest =>
    let md := ex url
    let kept : List Article :=
      match md with
      | some m => if m.titulo = "" then [] else [m]
      | none => []
    let evs : List BatchEvent :=
      BatchEvent.extractOf url :: (if i < total then [BatchEvent.delay] else [])
    let r := batchGo ex total (i + 1) rest
    (kept ++ r.1, evs ++ r.2)

/-- `parser.py` lines 334-373: `process_articles_batch`, with the extractor
abstracted as a function (`extract_article_metadata` returns `None` on any
fault rather than raising). -/
def processArticlesBatch (ex : String → Option Article) (urls : List String) :
    List Article × List BatchEvent :=
  batchGo ex urls.length 1 urls

/-! ## Theorems -/

/-- Taking while `p` then while `q` commutes. -/
theorem takeWhile_comm (p q : Char → Bool) (l : List Char) :
    List.takeWhile p (List.takeWhile q l) = List.takeWhile q (List.takeWhile p l) := by
  rw [List.takeWhile_takeWhile, List.takeWhile_takeWhile]
  congr 1
  funext a
  exact decide_eq_decide.mpr and_comm

/-- C9: `canonicalize` is idempotent: stripping everything from the first `?`
or `#` onward a second time changes nothing. -/
theorem normalizeUrl_idempotent (u : String) :
    normalizeUrl (normalizeUrl u) = normalizeUrl u := by
  unfold normalizeUrl takeUntilChar
  congr 1
  show List.takeWhile (fun x => x ≠ '#')
      (List.takeWhile (fun x => x ≠ '?')
        (List.takeWhile (fun x => x ≠ '#') (List.takeWhile (fun x => x ≠ '?') u.toList))) =
    List.takeWhile (fun x => x ≠ '#') (List.takeWhile (fun x => x ≠ '?') u.toList)
  rw [List.takeWhile_takeWhile (fun x => x ≠ '#') (fun x => x ≠ '?')
      (List.takeWhile (fun x => x ≠ '#') (List.takeWhile (fun x => x ≠ '?') u.toList)),
    List.takeWhile_takeWhile (fun x => x ≠ '#') (fun x => x ≠ '?') u.toList,
    List.takeWhile_idem]

/-- The filter body equals the spec-side keep condition. -/
theorem keepArticle_iff (required : List String) (year : Int) (a : Article) :
    keepArticle (required.map normTag) year a = true ↔ KeepSpec required year a := by
  unfold keepArticle KeepSpec
  by_cases h1 : a.data_publicacao = ""
  · simp [h1]
  · by_cases h2 : pyStartsWith a.data_publicacao (toString year) = true
    · rw [if_neg (by simp [h1, h2])]
      constructor
      · intro h
        refine ⟨h1, h2, ?_⟩
        intro req hreq
        have hall := List.all_eq_true.mp h (normTag req) (List.mem_map.mpr ⟨req, hreq, rfl⟩)
        obtain ⟨tag, htag, hor⟩ := List.any_eq_true.mp hall
        obtain ⟨tg, htg, rfl⟩ := List.mem_map.mp htag
        exact ⟨tg, htg, by simpa using hor⟩
      · rintro ⟨-, -, h⟩
        apply List.all_eq_true.mpr
        intro x hx
        obtain ⟨req, hreq, rfl⟩ := List.mem_map.mp hx
        obtain ⟨tg, htg, hor⟩ := h req hreq
        exact List.any_eq_true.mpr
          ⟨normTag tg, List.mem_map.mpr ⟨tg, htg, rfl⟩, by simpa using hor⟩
    · simp [h1, h2]

/-- C1: the Criteria Filter keeps a record iff its `publishedDate` is non-empty
and begins with the decimal form of `year` and every required category matches
some record category under the normalized substring test in either direction
(conjunctive over required categories), and it preserves the input order
(the output is a sublist of the input). -/
theorem filterArticles_spec (articles : List Article) (required : List String)
    (year : Int) :
    filterArticlesByCriteria articles required year =
      articles.filter (fun a => decide (KeepSpec required year a)) ∧
    (filterArticlesByCriteria articles required year).Sublist articles := by
  constructor
  · unfold filterArticlesByCriteria
    apply List.filter_congr
    intro a _
    rw [Bool.eq_iff_iff, keepArticle_iff, decide_eq_true_eq]
  · exact List.filter_sublist _

/-- C10: with an empty required-category set the conjunction is vacuous, so the
filter keeps exactly the records whose `publishedDate` is non-empty and begins
with the year's decimal string. -/
theorem filterArticles_empty_required (articles : List Article) (year : Int) :
    filterArticlesByCriteria articles [] year =
      articles.filter (fun a =>
        !(a.data_publicacao = "") && pyStartsWith a.data_publicacao (toString year)) := by
  unfold filterArticlesByCriteria
  apply List.filter_congr
  intro a _
  unfold keepArticle
  by_cases h1 : a.data_publicacao = "" <;>
    by_cases h2 : pyStartsWith a.data_publicacao (toString year) = true <;>
      simp [h1, h2]

/-- C8: the URL classifier rejects the empty string and any string containing
an exclusion marker, even one matching an accept pattern; otherwise it accepts
exactly the strings with the user-namespace marker and length above 40, or with
a hyphen-plus-8-to-12-lowercase-hex suffix. -/
theorem isArticleUrl_spec (url : String) :
    ((url = "" ∨ ∃ b ∈ badMarkers, pyIn b (pyLower url) = true) →
      isArticleUrl url = false) ∧
    (url ≠ "" → (∀ b ∈ badMarkers, pyIn b (pyLower url) = false) →
      (isArticleUrl url = true ↔
        ((pyIn "/@" url = true ∧ url.length > 40) ∨ hexSuffixAtEnd url = true))) := by
  constructor
  · rintro (rfl | ⟨b, hb, hbin⟩)
    · rfl
    · have hany : badMarkers.any (fun b => pyIn b (pyLower url)) = true :=
        List.any_eq_true.mpr ⟨b, hb, hbin⟩
      unfold isArticleUrl
      rw [hany]
      simp
  · intro hne hmark
    have hany : badMarkers.any (fun b => pyIn b (pyLower url)) = false := by
      rw [Bool.eq_false_iff]
      intro h
      obtain ⟨b, hb, hbin⟩ := List.any_eq_true.mp h
      rw [hmark b hb] at hbin
      exact Bool.false_ne_true hbin
    unfold isArticleUrl
    rw [hany]
    simp [hne, Bool.and_eq_true]

/-- Concrete consequence of `isArticleUrl_spec`: a URL containing the `/tag/`
exclusion marker is rejected although its hex suffix matches an accept pattern,
and a clean hex-suffixed URL is accepted. -/
theorem isArticleUrl_spec_witness :
    isArticleUrl "x/tag/y-0123456789ab" = false ∧ isArticleUrl "x/y-0123456789ab" = true := by
  constructor
  · exact (isArticleUrl_spec "x/tag/y-0123456789ab").1
      (Or.inr ⟨"/tag/", by decide, by decide⟩)
  · exact ((isArticleUrl_spec "x/y-0123456789ab").2 (by decide)
      (by decide)).mpr (Or.inr (by decide))

/-- A character occurring in a list is found by the substring search. -/
theorem listHas_singleton_of_mem (c : Char) (l : List Char) (hc : c ∈ l) :
    listHas [c] l = true := by
  induction l with
  | nil => cases hc
  | cons a as ih =>
    cases hc with
    | head => simp [listHas, listStarts]
    | tail _ hmem => simp [listHas, ih hmem]

/-- The singleton substring search is exactly membership. -/
theorem listHas_singleton_iff (c : Char) (l : List Char) :
    listHas [c] l = true ↔ c ∈ l := by
  constructor
  · intro h
    induction l with
    | nil => simp [listHas, listStarts] at h
    | cons a as ih =>
      simp only [listHas, listStarts, Bool.or_eq_true, Bool.and_eq_true] at h
      rcases h with ⟨hca, -⟩ | htail
      · exact (decide_eq_true_eq.mp hca) ▸ List.mem_cons_self a as
      · exact List.mem_cons_of_mem a (ih htail)
  · exact listHas_singleton_of_mem c l

/-- Cutting a list at an occurring character strictly shortens it. -/
theorem length_takeWhile_lt_of_mem (c : Char) (l : List Char) (hc : c ∈ l) :
    (l.takeWhile (fun x => x ≠ c)).length < l.length := by
  have hpre := List.takeWhile_prefix (l := l) (fun x => x ≠ c)
  refine Nat.lt_of_le_of_ne hpre.length_le ?_
  intro heq
  have heql := hpre.eq_of_length heq
  have hall := List.takeWhile_eq_self_iff.mp heql c hc
  simp at hall

/-- C2 counterexample: on `"foo+bar"` no date parse succeeds (neither on the
input nor on its stripped form), yet `_normalize_date` returns `"foo"` — the
input with the text from the first `+` removed — not the original input. -/
theorem normalizeDate_not_identity_cex :
    fromIsoFormat "foo+bar" = none ∧ tryStrptimeFormats "foo+bar" = none ∧
    fromIsoFormat "foo" = none ∧ tryStrptimeFormats "foo" = none ∧
    normalizeDate "foo+bar" = "foo" ∧ "foo" ≠ "foo+bar" := by decide

/-- C2 (amended): on inputs where neither the ISO parse nor any localized
layout succeeds, `_normalize_date` returns the input with the time-of-day part
(from the first `T`) and the offset part (from the first `+`) stripped — hence
unchanged exactly when the input contains neither `T` nor `+` — and it never
throws; the canonical round-trips hold: `normalize("") = ""`,
`normalize("not a date") = "not a date"`, `normalize("2025-03-14") = "2025-03-14"`,
and a space-separated date-time parses: `normalize("2025-03-14 08:00") = "2025-03-14"`. -/
theorem normalizeDate_unparsed_spec :
    (∀ s : String,
      fromIsoFormat (removeChar 'Z' (stripTimeParts s)) = none →
      tryStrptimeFormats (pyStrip (stripTimeParts s)) = none →
      normalizeDate s = stripTimeParts s) ∧
    (∀ s : String,
      stripTimeParts s = s ↔ (pyIn "T" s = false ∧ pyIn "+" s = false)) ∧
    normalizeDate "" = "" ∧
    normalizeDate "not a date" = "not a date" ∧
    normalizeDate "2025-03-14" = "2025-03-14" ∧
    normalizeDate "2025-03-14 08:00" = "2025-03-14" := by
  refine ⟨?_, ?_, by decide, by decide, by decide, by decide⟩
  · intro s h1 h2
    by_cases hs : s = ""
    · subst hs; rfl
    · simp only [normalizeDate, if_neg hs, h1, h2]
  · intro s
    constructor
    · intro h
      have hlen : (stripTimeParts s).toList.length = s.toList.length := by rw [h]
      by_cases hT : pyIn "T" s = true
      · exfalso
        have hmemT : 'T' ∈ s.toList :=
          (listHas_singleton_iff 'T' s.toList).mp (by simpa [pyIn] using hT)
        have h1 : (s.toList.takeWhile (fun x => x ≠ 'T')).length < s.toList.length :=
          length_takeWhile_lt_of_mem 'T' s.toList hmemT
        have h2 : (stripTimeParts s).toList.length ≤
            (s.toList.takeWhile (fun x => x ≠ 'T')).length := by
          unfold stripTimeParts takeUntilChar
          rw [if_pos hT]
          exact (List.takeWhile_prefix _).length_le
        omega
      · refine ⟨by simpa using hT, ?_⟩
        by_cases hP : pyIn "+" s = true
        · exfalso
          have hmemP : '+' ∈ s.toList :=
            (listHas_singleton_iff '+' s.toList).mp (by simpa [pyIn] using hP)
          have h1 : (s.toList.takeWhile (fun x => x ≠ '+')).length < s.toList.length :=
            length_takeWhile_lt_of_mem '+' s.toList hmemP
          have h2 : (stripTimeParts s).toList.length =
              (s.toList.takeWhile (fun x => x ≠ '+')).length := by
            unfold stripTimeParts takeUntilChar
            rw [if_neg (by simpa using hT)]
            rfl
          omega
        · simpa using hP
    · rintro ⟨hT, hplus⟩
      unfold stripTimeParts
      rw [hT]
      simp only [Bool.false_eq_true, if_false]
      unfold takeUntilChar
      have hself : s.toList.takeWhile (fun x => x ≠ '+') = s.toList := by
        apply List.takeWhile_eq_self_iff.mpr
        intro c hc
        simp only [ne_eq, decide_eq_true_eq]
        intro hceq
        subst hceq
        have hhas := listHas_singleton_of_mem '+' s.toList hc
        simpa [pyIn] using hplus.symm.trans hhas
      rw [hself]
      cases s
      rfl

/-- Concrete instance of the amended C2 universal: `"fooTbar"` parses under no
layout, and the normalizer returns its `T`-stripped form `"foo"`. -/
theorem normalizeDate_unparsed_spec_witness : normalizeDate "fooTbar" = "foo" := by
  exact (normalizeDate_unparsed_spec.1 "fooTbar" (by decide) (by decide)).trans (by decide)

/-- C7: the markup tier is invoked exactly when the structured-data tier yields
nothing or a record with an empty title; and every non-absent result is stamped
with the constant origin tag and the input reference, whichever tier produced
the data. -/
theorem extractMetadata_spec (jsonldResult htmlResult : Option Article) (url : String) :
    (usesMarkupTier jsonldResult = true ↔
      jsonldResult = none ∨ ∃ m, jsonldResult = some m ∧ m.titulo = "") ∧
    extractArticleMetadata jsonldResult htmlResult url =
      (if usesMarkupTier jsonldResult then htmlResult else jsonldResult).map
        (fun m => { m with url := url, fonte := "medium" }) ∧
    (∀ r, extractArticleMetadata jsonldResult htmlResult url = some r →
      r.fonte = "medium" ∧ r.url = url) := by
  refine ⟨?_, ?_, ?_⟩
  · cases jsonldResult with
    | none => simp [usesMarkupTier]
    | some m => simp [usesMarkupTier]
  · simp only [extractArticleMetadata]
    cases h : (if usesMarkupTier jsonldResult then htmlResult else jsonldResult) <;>
      simp [h]
  · intro r hr
    simp only [extractArticleMetadata] at hr
    cases h : (if usesMarkupTier jsonldResult then htmlResult else jsonldResult) with
    | none => rw [h] at hr; exact absurd hr (by simp)
    | some m =>
      rw [h] at hr
      simp only [Option.some.injEq] at hr
      subst hr
      exact ⟨rfl, rfl⟩

/-- Concrete consequence of `extractMetadata_spec`: a structured-data record
with non-empty title comes back stamped with source `"medium"` and the input
reference. -/
theorem extractMetadata_spec_witness :
    ∃ r, extractArticleMetadata (some { articleTemplate with titulo := "t", fonte := "x" })
        none "u" = some r ∧ r.fonte = "medium" ∧ r.url = "u" := by
  refine ⟨_, rfl, ?_⟩
  exact (extractMetadata_spec (some { articleTemplate with titulo := "t", fonte := "x" })
    none "u").2.2 _ rfl

/-- The records retained by the batch loop: extraction succeeded with a
non-empty title, in input order. -/
theorem batchGo_results (ex : String → Option Article) (total : Nat) :
    ∀ (urls : List String) (i : Nat),
      (batchGo ex total i urls).1 = urls.filterMap fun u =>
        match ex u with
        | some m => if m.titulo = "" then none else some m
        | none => none := by
  intro urls
  induction urls with
  | nil => intro i; rfl
  | cons u rest ih =>
    intro i
    simp only [batchGo, List.filterMap_cons]
    cases h : ex u with
    | none => simp [h, ih]
    | some m => by_cases ht : m.titulo = "" <;> simp [h, ht, ih]

/-- The event trace of the batch loop: one extraction per reference in input
order, with the pacing delay exactly between consecutive extractions. -/
theorem batchGo_events (ex : String → Option Article) :
    ∀ (urls : List String) (i total : Nat), 1 ≤ i →
      total = i - 1 + urls.length →
      (batchGo ex total i urls).2 =
        List.intersperse BatchEvent.delay (urls.map BatchEvent.extractOf) := by
  intro urls
  induction urls with
  | nil => intros; rfl
  | cons u rest ih =>
    intro i total hi htot
    cases rest with
    | nil =>
      simp only [List.length_cons, List.length_nil] at htot
      have hnlt : ¬ i < total := by omega
      simp [batchGo, hnlt]
    | cons v rest2 =>
      simp only [List.length_cons] at htot
      have hlt : i < total := by omega
      have ihh := ih (i + 1) total (by omega) (by simp only [List.length_cons]; omega)
      simp only [batchGo, if_pos hlt, List.map_cons, List.intersperse_cons_cons]
      simp only [batchGo] at ihh
      simp [ihh]

/-- Retained-count helper: the filterMap length is the count of successes with
non-empty title. -/
theorem batch_count (ex : String → Option Article) (urls : List String) :
    (urls.filterMap fun u =>
        match ex u with
        | some m => if m.titulo = "" then none else some m
        | none => none).length =
      urls.countP fun u =>
        match ex u with
        | some m => !(m.titulo = "")
        | none => false := by
  induction urls with
  | nil => rfl
  | cons u rest ih =>
    simp only [List.filterMap_cons, List.countP_cons]
    cases h : ex u with
    | none => simp [h, ih]
    | some m => by_cases ht : m.titulo = "" <;> simp [h, ht, ih]

/-- C6: on a reference list with both failing and succeeding extractions, the
Batch Orchestrator invokes the Extractor once per reference in input order with
the pacing delay between consecutive invocations only, and outputs exactly the
subsequence of successful extractions with non-empty title, whose length is the
count of such successes. -/
theorem processBatch_spec (ex : String → Option Article) (urls : List String)
    (hfail : ∃ u ∈ urls, ex u = none)
    (hsucc : ∃ u ∈ urls, ∃ m, ex u = some m ∧ m.titulo ≠ "") :
    (processArticlesBatch ex urls).1 = (urls.filterMap fun u =>
        match ex u with
        | some m => if m.titulo = "" then none else some m
        | none => none) ∧
    (processArticlesBatch ex urls).2 =
      List.intersperse BatchEvent.delay (urls.map BatchEvent.extractOf) ∧
    (processArticlesBatch ex urls).1.length = urls.countP fun u =>
        match ex u with
        | some m => !(m.titulo = "")
        | none => false := by
  refine ⟨batchGo_results ex urls.length urls 1, ?_, ?_⟩
  · exact batchGo_events ex urls 1 urls.length (by omega) (by omega)
  · show (batchGo ex urls.length 1 urls).1.length = _
    rw [batchGo_results ex urls.length urls 1]
    exact batch_count ex urls

/-- Concrete consequence of `processBatch_spec`: a two-reference batch with one
success and one failure produces one record and the trace
extract, delay, extract (no trailing delay). -/
theorem processBatch_spec_witness :
    (processArticlesBatch
        (fun u => if u = "a" then some { articleTemplate with titulo := "t" } else none)
        ["a", "b"]).2 =
      [BatchEvent.extractOf "a", BatchEvent.delay, BatchEvent.extractOf "b"] ∧
    (processArticlesBatch
        (fun u => if u = "a" then some { articleTemplate with titulo := "t" } else none)
        ["a", "b"]).1.length = 1 := by
  have h := processBatch_spec
    (fun u => if u = "a" then some { articleTemplate with titulo := "t" } else none)
    ["a", "b"]
    ⟨"b", by decide, by decide⟩
    ⟨"a", by decide, { articleTemplate with titulo := "t" }, by decide, by decide⟩
  refine ⟨h.2.1.trans (by decide), h.2.2.trans (by decide)⟩

/-- With a non-chronological page, one loop iteration never stops via the
stale-content signal. -/
theorem loopStep_not_stale (hv : Finset String × Bool) (c : Finset String) (nn : Nat) :
    (loopStep hv false c nn).2.2 ≠ some StopReason.staleContent := by
  unfold loopStep
  simp only [Bool.and_false, Bool.false_eq_true, if_false]
  split <;> simp

/-- If every page state is non-chronological, the whole loop never stops via
the stale-content signal. -/
theorem collectLoopAux_no_stale (harvest : Nat → Finset String × Bool)
    (chron : Nat → Bool) (hc : ∀ i, chron i = false) :
    ∀ (fuel sc noNew : Nat) (collected : Finset String),
      (collectLoopAux harvest chron fuel sc noNew collected).2.2 ≠
        StopReason.staleContent := by
  intro fuel
  induction fuel with
  | zero =>
    intro sc nn c h
    simp [collectLoopAux] at h
  | succ fuel ih =>
    intro sc nn c
    simp only [collectLoopAux, hc (sc + 1)]
    cases h : (loopStep (harvest (sc + 1)) false c nn).2.2 with
    | none => exact ih (sc + 1) _ _
    | some r =>
      intro hr
      simp only at hr
      subst hr
      exact loopStep_not_stale (harvest (sc + 1)) c nn h

/-- C5: an iteration stops via the stale-content signal exactly when the
harvest reports an old item and the current page URL is the chronological
listing; on a non-chronological listing the run never stops via this signal;
and the implemented link-harvest pass never reports an old item. -/
theorem staleSignal_spec :
    (∀ (harvested : Finset String × Bool) (isChron : Bool)
        (collected : Finset String) (noNew : Nat),
      (loopStep harvested isChron collected noNew).2.2 = some StopReason.staleContent ↔
        harvested.2 = true ∧ isChron = true) ∧
    (∀ (harvest : Nat → Finset String × Bool) (chron : Nat → Bool),
      (∀ i, chron i = false) →
      (collectLinks harvest chron).2.2 ≠ StopReason.staleContent) ∧
    (∀ hrefs : List String, (extractArticleLinks hrefs).2 = false) := by
  refine ⟨?_, ?_, fun hrefs => rfl⟩
  · intro hv ic c nn
    obtain ⟨hset, hold⟩ := hv
    cases hold <;> cases ic <;>
      simp only [loopStep, Bool.and_self, Bool.and_true, Bool.and_false,
        Bool.true_and, Bool.false_and, Bool.false_eq_true, if_false, if_true] <;>
      first
        | (split <;> simp)
        | simp
  · intro harvest chron hc
    exact collectLoopAux_no_stale harvest chron hc MAX_SCROLLS 0 0 ∅

/-- Concrete consequence of `staleSignal_spec`: on a run whose page is never
the chronological listing, the stop reason is not the stale-content signal. -/
theorem staleSignal_spec_witness :
    (collectLinks (fun _ => ((∅ : Finset String), true)) (fun _ => false)).2.2 ≠
      StopReason.staleContent := by
  exact staleSignal_spec.2.1 (fun _ => ((∅ : Finset String), true)) (fun _ => false)
    (fun i => rfl)

/-- The no-new-content counter after `k` iterations is at most `k`. -/
theorem collectState_noNew_le (harvest : Nat → Finset String × Bool) :
    ∀ k, (collectState harvest k).2 ≤ k := by
  intro k
  induction k with
  | zero => simp [collectState]
  | succ k ih =>
    simp only [collectState, mergeStep]
    split
    · simp
    · simpa using Nat.succ_le_succ ih

/-- The accumulator of one merge iteration never shrinks. -/
theorem collectState_subset_succ (harvest : Nat → Finset String × Bool) (k : Nat) :
    (collectState harvest k).1 ⊆ (collectState harvest (k + 1)).1 := by
  show (collectState harvest k).1 ⊆ (mergeStep _ _ _).1
  unfold mergeStep
  split
  · exact Finset.subset_union_left
  · exact Finset.Subset.refl _

/-- The accumulator grows monotonically over iterations. -/
theorem collectState_mono (harvest : Nat → Finset String × Bool) :
    ∀ j k, j ≤ k → (collectState harvest j).1 ⊆ (collectState harvest k).1 := by
  intro j k h
  induction k with
  | zero =>
    have hj : j = 0 := Nat.le_zero.mp h
    subst hj
    exact Finset.Subset.refl _
  | succ k ih =>
    rcases Nat.eq_or_lt_of_le h with heq | hlt
    · subst heq
      exact Finset.Subset.refl _
    · exact Finset.Subset.trans (ih (Nat.lt_succ_iff.mp hlt))
        (collectState_subset_succ harvest k)

/-- Once every future harvest is contained in the accumulator and no old
content is ever reported, the loop runs exactly `6 - noNew` more iterations and
stops with the exhaustion signal, leaving the accumulator unchanged. -/
theorem collectLoopAux_exhausts (harvest : Nat → Finset String × Bool)
    (chron : Nat → Bool) (hold : ∀ i, (harvest i).2 = false) :
    ∀ (fuel sc noNew : Nat) (collected : Finset String),
      (∀ i, sc < i → (harvest i).1 ⊆ collected) →
      noNew < 6 → 6 - noNew ≤ fuel →
      collectLoopAux harvest chron fuel sc noNew collected =
        (collected, sc + (6 - noNew), StopReason.exhaustion) := by
  intro fuel
  induction fuel with
  | zero =>
    intro sc nn c hsub h6 hf
    exact absurd hf (by omega)
  | succ fuel ih =>
    intro sc nn c hsub h6 hf
    have hcard : ¬ c.card < (harvest (sc + 1)).1.card :=
      Nat.not_lt.mpr (Finset.card_le_card (hsub (sc + 1) (Nat.lt_succ_self sc)))
    simp only [collectLoopAux, loopStep, mergeStep, hold (sc + 1), Bool.false_and,
      Bool.false_eq_true, if_false, if_neg hcard]
    by_cases hstop : 6 ≤ nn + 1
    · have hnn5 : nn = 5 := by omega
      subst hnn5
      simp
    · simp only [if_neg hstop]
      rw [ih (sc + 1) (nn + 1) c (fun i hi => hsub i (by omega)) (by omega) (by omega)]
      have harith : sc + 1 + (6 - (nn + 1)) = sc + (6 - nn) := by omega
      rw [harith]

/-- Running the loop from the start coincides with the iterated merge state as
long as no stop condition has fired. -/
theorem collectLoopAux_advance (harvest : Nat → Finset String × Bool)
    (chron : Nat → Bool) (hold : ∀ i, (harvest i).2 = false) :
    ∀ k fuel, k ≤ fuel →
      (∀ j, 1 ≤ j → j ≤ k → (collectState harvest j).2 < 6) →
      collectLoopAux harvest chron fuel 0 0 ∅ =
        collectLoopAux harvest chron (fuel - k) k (collectState harvest k).2
          (collectState harvest k).1 := by
  intro k
  induction k with
  | zero => intro fuel _ _; rfl
  | succ k ih =>
    intro fuel hk hnn
    rw [ih fuel (by omega) (fun j h1 h2 => hnn j h1 (by omega))]
    have hfk : fuel - k = (fuel - (k + 1)) + 1 := by omega
    rw [hfk]
    have hm : mergeStep (collectState harvest k).1 (collectState harvest k).2
        (harvest (k + 1)).1 = collectState harvest (k + 1) := rfl
    simp only [collectLoopAux, loopStep, hold (k + 1), Bool.false_and,
      Bool.false_eq_true, if_false, hm]
    have h6 : ¬ 6 ≤ (collectState harvest (k + 1)).2 :=
      Nat.not_le.mpr (hnn (k + 1) (by omega) (by omega))
    simp only [if_neg h6]

/-- C4: on a simulated feed that reports no old content and yields no reference
beyond those accumulated in the first 3 iterations, the run stops with the
exhaustion signal (six consecutive stale iterations) by iteration 9, far below
the 150-iteration cap. -/
theorem collector_exhaustion_halts (harvest : Nat → Finset String × Bool)
    (chron : Nat → Bool)
    (hold : ∀ i, (harvest i).2 = false)
    (hstale : ∀ i, 4 ≤ i → (harvest i).1 ⊆ (collectState harvest 3).1) :
    (collectLinks harvest chron).2.1 ≤ 9 ∧
    (collectLinks harvest chron).2.2 = StopReason.exhaustion ∧
    (collectLinks harvest chron).2.1 < MAX_SCROLLS := by
  have hnn := collectState_noNew_le harvest
  have h150 : MAX_SCROLLS = 150 := rfl
  unfold collectLinks
  rw [collectLoopAux_advance harvest chron hold 3 MAX_SCROLLS (by omega)
    (fun j h1 h2 => by have := hnn j; omega)]
  rw [collectLoopAux_exhausts harvest chron hold (MAX_SCROLLS - 3) 3
    (collectState harvest 3).2 (collectState harvest 3).1
    (fun i hi => hstale i (by omega))
    (by have := hnn 3; omega)
    (by have := hnn 3; omega)]
  refine ⟨by have := hnn 3; simp; omega, rfl, by have := hnn 3; simp; omega⟩

/-- Concrete consequence of `collector_exhaustion_halts`: a constant feed stops
by iteration 9 with the exhaustion signal. -/
theorem collector_exhaustion_halts_witness :
    (collectLinks (fun _ => (({"a"} : Finset String), false)) (fun _ => false)).2.1 ≤ 9 ∧
    (collectLinks (fun _ => (({"a"} : Finset String), false)) (fun _ => false)).2.2 =
      StopReason.exhaustion := by
  have h := collector_exhaustion_halts (fun _ => (({"a"} : Finset String), false))
    (fun _ => false) (fun i => rfl) (fun i hi => by
      show ({"a"} : Finset String) ⊆
        (collectState (fun _ => (({"a"} : Finset String), false)) 3).1
      decide)
  exact ⟨h.1, h.2.1⟩

/-- C3 counterexample: in a feed whose first harvest is `{a, b}` and whose
second harvest is the singleton `{c}` (all three classifier-accepted, already
canonical), iteration 2's harvested reference `c` is not merged — the
accumulator after iteration 2 is not its previous contents union the harvested
hits, and `c` is lost for the whole run. -/
theorem collector_merge_cex :
    let harvest := fun i =>
      if i = 1 then extractArticleLinks ["a-0123456789", "b-0123456789"]
      else extractArticleLinks ["c-0123456789"]
    "c-0123456789" ∈ (harvest 2).1 ∧
    "c-0123456789" ∉ (collectState harvest 2).1 ∧
    (collectState harvest 2).1 ≠ (collectState harvest 1).1 ∪ (harvest 2).1 ∧
    "c-0123456789" ∉ (collectLinks harvest (fun _ => false)).1 := by decide

/-- C3 (amended): each iteration merges the canonicalized accepted hrefs into
the accumulator only when the harvested set is strictly larger than the
accumulator (then the new accumulator is exactly the union); otherwise the
accumulator is left unchanged and the iteration's harvest is discarded.  The
accumulator itself never loses elements it already holds (it grows
monotonically). -/
theorem collector_merge_spec (harvest : Nat → Finset String × Bool) :
    (∀ k, (collectState harvest (k + 1)).1 =
      if (collectState harvest k).1.card < (harvest (k + 1)).1.card
      then (collectState harvest k).1 ∪ (harvest (k + 1)).1
      else (collectState harvest k).1) ∧
    (∀ j k, j ≤ k → (collectState harvest j).1 ⊆ (collectState harvest k).1) := by
  constructor
  · intro k
    show (mergeStep _ _ _).1 = _
    unfold mergeStep
    split
    · rfl
    · rfl
  · exact collectState_mono harvest

/-- Concrete consequence of `collector_merge_spec`: the accumulator after one
iteration is contained in the accumulator after two. -/
theorem collector_merge_spec_witness :
    (collectState (fun _ => (({"a"} : Finset String), false)) 1).1 ⊆
      (collectState (fun _ => (({"a"} : Finset String), false)) 2).1 := by
  exact (collector_merge_spec (fun _ => (({"a"} : Finset String), false))).2 1 2
    (by omega)
